import Mathlib

set_option maxHeartbeats 1000000
set_option maxRecDepth 8000

/-!
Shallow embedding of `pwdgen.py`, a CLI password generator.

Python sets of characters are modelled as duplicate-free `List Char`
(only membership matters for the properties below); the cryptographic
random source (`secrets.choice`, `secrets.randbelow`) is modelled by an
explicit stream of natural numbers `rs : List Nat` consumed one value
per primitive draw, with `choice l r = l[r % len l]` and
`randbelow n r = r % n`, so that every possible sequence of draws of the
program corresponds to some stream.
-/

/-- Set union on the list model of a Python set: keep the left operand and
add the elements of the right one that are not already present. -/
def sunion (l1 l2 : List Char) : List Char :=
  l1 ++ l2.filter (fun c => !decide (c ∈ l1))

/-- Set difference on the list model of a Python set. -/
def sminus (l1 l2 : List Char) : List Char :=
  l1.filter (fun c => !decide (c ∈ l2))

/-- `string.digits`. -/
def digits : List Char := "0123456789".toList

/-- `string.octdigits`. -/
def octdigits : List Char := "01234567".toList

/-- `string.ascii_lowercase`. -/
def ascii_lowercase : List Char := "abcdefghijklmnopqrstuvwxyz".toList

/-- `string.ascii_uppercase`. -/
def ascii_uppercase : List Char := "ABCDEFGHIJKLMNOPQRSTUVWXYZ".toList

/-- `string.punctuation`: the 32 ASCII printable characters that are neither
letters, digits nor space. -/
def punctuation : List Char := "!\"#$%&\x27()*+,-./:;<=>?@[\\]^_`\x7b|\x7d~".toList

/-- `LOWERCASE = set(ascii_lowercase)` (pwdgen.py line 87). -/
def LOWERCASE : List Char := ascii_lowercase

/-- `UPPERCASE = set(ascii_uppercase)` (line 88). -/
def UPPERCASE : List Char := ascii_uppercase

/-- `LETTER = LOWERCASE | UPPERCASE` (line 89). -/
def LETTER : List Char := sunion LOWERCASE UPPERCASE

/-- `DIGIT = set(digits)` (line 90). -/
def DIGIT : List Char := digits

/-- `ALPHANUMERIC = LETTER | DIGIT` (line 91). -/
def ALPHANUMERIC : List Char := sunion LETTER DIGIT

/-- `SYMBOL = set(punctuation)` (line 92). -/
def SYMBOL : List Char := punctuation

/-- `ALL = ALPHANUMERIC | SYMBOL` (line 93). -/
def ALL : List Char := sunion ALPHANUMERIC SYMBOL

/-- `BINARY = set('01')` (line 94). -/
def BINARY : List Char := "01".toList

/-- `OCTAL = set(octdigits)` (line 95). -/
def OCTAL : List Char := octdigits

/-- `HEX_LOWER = DIGIT | set('abcdef')` (line 96). -/
def HEX_LOWER : List Char := sunion DIGIT "abcdef".toList

/-- `HEX_UPPER = DIGIT | set('ABCDEF')` (line 97). -/
def HEX_UPPER : List Char := sunion DIGIT "ABCDEF".toList

/-- The parsed command line arguments (`namespace` in pwdgen.py): the
positional length, the category flags, the include/exclude strings
(as character lists) and the modifiers. -/
structure Args where
  length : Int
  lowercase : Bool := false
  uppercase : Bool := false
  digit : Bool := false
  symbol : Bool := false
  letter : Bool := false
  alphanumeric : Bool := false
  all : Bool := false
  empty : Bool := false
  binary : Bool := false
  octal : Bool := false
  hex_lower : Bool := false
  hex_upper : Bool := false
  excluded : List Char := []
  included : List Char := []
  pure : Bool := false
deriving DecidableEq

/-- Accumulate the flag-selected category sets in order, starting from the
empty set (the `character_set |= ...` cascade, lines 117-126). -/
def accumFlags (l : List (Bool × List Char)) : List Char :=
  l.foldl (fun s p => if p.1 then sunion s p.2 else s) []

/-- The ten category flags with their sets, in the order the code tests them
(lines 117-126). -/
def flagSets (a : Args) : List (Bool × List Char) :=
  [(a.lowercase, LOWERCASE), (a.uppercase, UPPERCASE), (a.letter, LETTER),
   (a.digit, DIGIT), (a.alphanumeric, ALPHANUMERIC), (a.symbol, SYMBOL),
   (a.binary, BINARY), (a.octal, OCTAL), (a.hex_lower, HEX_LOWER),
   (a.hex_upper, HEX_UPPER)]

/-- Phase 1 of the builder (lines 112-129): `--all` short-circuits to `ALL`;
otherwise combine the flagged sets, defaulting to `ALL` when the combination
is empty and `--empty` was not requested. -/
def baseSet (a : Args) : List Char :=
  if a.all then ALL
  else if accumFlags (flagSets a) = [] ∧ a.empty = false then ALL
  else accumFlags (flagSets a)

/-- Phase 2 of the builder (lines 131-133): add the included characters,
then remove the excluded ones.  `dedup` models `set(...)` on the argument
strings. -/
def character_set (a : Args) : List Char :=
  sminus (sunion (baseSet a) a.included.dedup) a.excluded.dedup

/-- `secrets.choice` on a list: an arbitrary draw `r` selects index
`r % length`. -/
def choice (l : List Char) (r : Nat) : Char := l.getD (r % l.length) 'a'

/-- `secrets.randbelow n`: an arbitrary draw `r` yields `r % n`. -/
def randbelow (n r : Nat) : Nat := r % n

/-- The `DIGITS` bucket of the classification loop (lines 147-151). -/
def DIGITS (cl : List Char) : List Char :=
  cl.filter (fun c => decide (c ∈ digits))

/-- The `ASCII_LOWERCASE` bucket: reached by the `elif` only when the
character is not a digit. -/
def ASCII_LOWERCASE (cl : List Char) : List Char :=
  cl.filter (fun c => !decide (c ∈ digits) && decide (c ∈ ascii_lowercase))

/-- The `ASCII_UPPERCASE` bucket: reached only when the character is neither
a digit nor a lowercase letter. -/
def ASCII_UPPERCASE (cl : List Char) : List Char :=
  cl.filter (fun c => !decide (c ∈ digits) && !decide (c ∈ ascii_lowercase)
    && decide (c ∈ ascii_uppercase))

/-- The `PUNCTUATION` bucket: the `else` branch, everything that is neither
digit, lowercase nor uppercase. -/
def PUNCTUATION (cl : List Char) : List Char :=
  cl.filter (fun c => !decide (c ∈ digits) && !decide (c ∈ ascii_lowercase)
    && !decide (c ∈ ascii_uppercase))

/-- The four buckets in the order the insertion loop iterates them
(line 162). -/
def buckets (cl : List Char) : List (List Char) :=
  [DIGITS cl, PUNCTUATION cl, ASCII_LOWERCASE cl, ASCII_UPPERCASE cl]

/-- `count = sum([bool(DIGITS), bool(PUNCTUATION), ...])` (lines 153-156):
the number of non-empty buckets. -/
def catCount (cl : List Char) : Nat :=
  (buckets cl).countP (fun b => decide (b ≠ []))

/-- The filler loop (lines 158-159 and 167-169): `n` successive
`choice(character_list)` draws, in draw order. -/
def fillers (cl : List Char) (n : Nat) (rs : List Nat) : List Char :=
  (List.range n).map (fun i => choice cl (rs.getD i 0))

/-- The insertion loop (lines 162-165): for each non-empty bucket, insert a
`choice` from the bucket at position `randbelow(len(password) + 1)`.  Python
evaluates the `randbelow` argument before the `choice` argument, so the
position draw consumes the stream first. -/
def insertCats : List (List Char) → List Char → List Nat → List Char
  | [], pwd, _ => pwd
  | b :: bs, pwd, rs =>
    if b = [] then insertCats bs pwd rs
    else insertCats bs
      (pwd.insertIdx (randbelow (pwd.length + 1) (rs.headD 0))
        (choice b (rs.tail.headD 0)))
      rs.tail.tail

/-- The sampler (lines 141-169): the balanced branch when `length >= 4` and
`--pure` is off (fillers appended first, then one insertion per non-empty
bucket), the plain branch otherwise. -/
def generate (cl : List Char) (len : Nat) (pureFlag : Bool) (rs : List Nat) :
    List Char :=
  if 4 ≤ len ∧ pureFlag = false then
    insertCats (buckets cl) (fillers cl (len - catCount cl) rs)
      (rs.drop (len - catCount cl))
  else
    fillers cl len rs

/-- The four validation failures of the program, in the order the code tests
them. -/
inductive PwdError where
  | badLength
  | invalidChar
  | conflict
  | emptySet
deriving DecidableEq

/-- The whole run of pwdgen.py: length validation (lines 82-83), the
unauthorized-character check over the union of the exclude and include sets
(lines 104-106), the conflict check (lines 109-110), the character set
construction, the empty check (lines 136-138) and the sampler. -/
def run (a : Args) (rs : List Nat) : Except PwdError (List Char) :=
  if a.length ≤ 0 then .error .badLength
  else if ∃ c ∈ a.excluded ++ a.included, c ∉ ALL then .error .invalidChar
  else if ∃ c ∈ a.excluded, c ∈ a.included then .error .conflict
  else if character_set a = [] then .error .emptySet
  else .ok (generate (character_set a) a.length.toNat a.pure rs)

/-- The eleven category flags of the CLI (`--all` plus the ten of
`flagSets`), used to state the spec-level builder. -/
def specFlagSets (a : Args) : List (Bool × List Char) :=
  (a.all, ALL) :: flagSets a

/-- No category flag at all is selected. -/
def noFlagSelected (a : Args) : Prop :=
  ∀ p ∈ specFlagSets a, p.1 = false

instance (a : Args) : Decidable (noFlagSelected a) := by
  unfold noFlagSelected; infer_instance

/-- The working alphabet as the spec words it: the union of the
flag-selected categories, defaulting to the full permitted set when no flag
is selected and `--empty` is not requested, extended with the include
characters and then with the exclude characters removed. -/
def specAlphabet (a : Args) : List Char :=
  sminus
    (sunion
      (if noFlagSelected a ∧ a.empty = false then ALL
       else accumFlags (specFlagSets a))
      a.included.dedup)
    a.excluded.dedup

/-- The balanced sampling procedure in the order the spec states it
(section 4.2): one character per non-empty bucket is inserted first, into an
initially empty password, and the `length - count` filler characters are
appended afterwards.  Each insertion consumes two draws, so the fillers
start after `2 * count` draws. -/
def specOrderSample (cl : List Char) (len : Nat) (rs : List Nat) : List Char :=
  insertCats (buckets cl) [] rs
    ++ fillers cl (len - catCount cl) (rs.drop (2 * catCount cl))

/-- Concrete arguments `pwdgen 4 -d`: length 4, digit flag only. -/
def argsDigit4 : Args :=
  Args.mk 4 false false true false false false false false false false false
    false [] [] false

/-- Concrete arguments `pwdgen -i ' '`: a space in the include string. -/
def argsSpace : Args :=
  Args.mk 16 false false false false false false false false false false false
    false [] [' '] false

/-- Concrete arguments `pwdgen -i '@' -e '@'`: conflicting include and
exclude. -/
def argsAt : Args :=
  Args.mk 16 false false false false false false false false false false false
    false ['@'] ['@'] false

/-- Concrete arguments `pwdgen -0`: the empty character set. -/
def argsEmptySet : Args :=
  Args.mk 16 false false false false false false false true false false false
    false [] [] false

/-- Concrete arguments `pwdgen 0`: a non-positive length. -/
def argsZero : Args :=
  Args.mk 0 false false false false false false false false false false false
    false [] [] false

/-- Membership in the union model. -/
theorem mem_sunion {c : Char} {l1 l2 : List Char} :
    c ∈ sunion l1 l2 ↔ c ∈ l1 ∨ c ∈ l2 := by
  simp only [sunion, List.mem_append, List.mem_filter, Bool.not_eq_true',
    decide_eq_false_iff_not]
  tauto

/-- Membership in the difference model. -/
theorem mem_sminus {c : Char} {l1 l2 : List Char} :
    c ∈ sminus l1 l2 ↔ c ∈ l1 ∧ c ∉ l2 := by
  simp [sminus, List.mem_filter]

/-- A draw from a non-empty list is an element of the list. -/
theorem choice_mem {l : List Char} (h : l ≠ []) (r : Nat) : choice l r ∈ l := by
  unfold choice
  have hlt : r % l.length < l.length :=
    Nat.mod_lt _ (List.length_pos.mpr h)
  rw [List.getD_eq_getElem l _ hlt]
  exact List.getElem_mem hlt

/-- The filler loop produces exactly `n` characters. -/
theorem fillers_length (cl : List Char) (n : Nat) (rs : List Nat) :
    (fillers cl n rs).length = n := by
  simp [fillers]

/-- Every filler character comes from the alphabet. -/
theorem fillers_subset {cl : List Char} (h : cl ≠ []) (n : Nat) (rs : List Nat) :
    ∀ c ∈ fillers cl n rs, c ∈ cl := by
  intro c hc
  simp only [fillers, List.mem_map] at hc
  obtain ⟨i, -, hi⟩ := hc
  exact hi ▸ choice_mem h _

/-- A `randbelow` position for an insertion into `pwd` is a valid index. -/
theorem randbelow_le (n r : Nat) : randbelow (n + 1) r ≤ n :=
  Nat.lt_succ_iff.mp (Nat.mod_lt _ (Nat.succ_pos _))

/-- The insertion loop adds exactly one character per non-empty bucket. -/
theorem insertCats_length (bs : List (List Char)) :
    ∀ (pwd : List Char) (rs : List Nat),
      (insertCats bs pwd rs).length
        = pwd.length + bs.countP (fun b => decide (b ≠ [])) := by
  induction bs with
  | nil => intro pwd rs; simp [insertCats]
  | cons b bs ih =>
    intro pwd rs
    simp only [insertCats]
    by_cases hb : b = []
    · rw [if_pos hb, ih, List.countP_cons]
      simp [hb]
    · rw [if_neg hb, ih, List.length_insertIdx _ _ (randbelow_le _ _),
        List.countP_cons]
      simp only [hb, ne_eq, not_false_eq_true, decide_True, if_true]
      omega

/-- The insertion loop never removes characters already placed. -/
theorem insertCats_mem_of_mem (bs : List (List Char)) :
    ∀ (pwd : List Char) (rs : List Nat) (c : Char),
      c ∈ pwd → c ∈ insertCats bs pwd rs := by
  induction bs with
  | nil => intro pwd rs c hc; simpa [insertCats] using hc
  | cons b bs ih =>
    intro pwd rs c hc
    simp only [insertCats]
    by_cases hb : b = []
    · rw [if_pos hb]; exact ih _ _ _ hc
    · rw [if_neg hb]
      exact ih _ _ _ ((List.mem_insertIdx (randbelow_le _ _)).mpr (Or.inr hc))

/-- Characters produced by the insertion loop come from the initial password
or from one of the buckets. -/
theorem insertCats_subset (bs : List (List Char)) (cl : List Char)
    (hbs : ∀ b ∈ bs, ∀ x ∈ b, x ∈ cl) :
    ∀ (pwd : List Char) (rs : List Nat),
      (∀ x ∈ pwd, x ∈ cl) → ∀ x ∈ insertCats bs pwd rs, x ∈ cl := by
  induction bs with
  | nil => intro pwd rs hpwd x hx; simp only [insertCats] at hx; exact hpwd x hx
  | cons b bs ih =>
    intro pwd rs hpwd x hx
    simp only [insertCats] at hx
    by_cases hb : b = []
    · rw [if_pos hb] at hx
      exact ih (fun b' hb' => hbs b' (List.mem_cons_of_mem _ hb')) _ _ hpwd x hx
    · rw [if_neg hb] at hx
      refine ih (fun b' hb' => hbs b' (List.mem_cons_of_mem _ hb')) _ _ ?_ x hx
      intro y hy
      rcases (List.mem_insertIdx (randbelow_le _ _)).mp hy with rfl | hy'
      · exact hbs b (List.mem_cons_self _ _) _ (choice_mem hb _)
      · exact hpwd y hy'

/-- The insertion loop places at least one character of every non-empty
bucket it iterates over. -/
theorem insertCats_exists (bs : List (List Char)) :
    ∀ (pwd : List Char) (rs : List Nat) (b : List Char),
      b ∈ bs → b ≠ [] → ∃ c, c ∈ insertCats bs pwd rs ∧ c ∈ b := by
  induction bs with
  | nil => intro pwd rs b hb; exact absurd hb (List.not_mem_nil b)
  | cons b0 bs ih =>
    intro pwd rs b hb hbne
    rcases List.mem_cons.mp hb with rfl | hb'
    · simp only [insertCats]
      rw [if_neg hbne]
      refine ⟨choice b (rs.tail.headD 0), ?_, choice_mem hbne _⟩
      exact insertCats_mem_of_mem bs _ _ _
        ((List.mem_insertIdx (randbelow_le _ _)).mpr (Or.inl rfl))
    · simp only [insertCats]
      by_cases hb0 : b0 = []
      · rw [if_pos hb0]; exact ih _ _ _ hb' hbne
      · rw [if_neg hb0]; exact ih _ _ _ hb' hbne

/-- Membership in the digit bucket. -/
theorem mem_DIGITS {cl : List Char} {c : Char} :
    c ∈ DIGITS cl ↔ c ∈ cl ∧ c ∈ digits := by
  simp [DIGITS, List.mem_filter]

/-- Membership in the lowercase bucket. -/
theorem mem_ASCII_LOWERCASE {cl : List Char} {c : Char} :
    c ∈ ASCII_LOWERCASE cl ↔ c ∈ cl ∧ c ∉ digits ∧ c ∈ ascii_lowercase := by
  simp [ASCII_LOWERCASE, List.mem_filter, and_assoc]

/-- Membership in the uppercase bucket. -/
theorem mem_ASCII_UPPERCASE {cl : List Char} {c : Char} :
    c ∈ ASCII_UPPERCASE cl ↔
      c ∈ cl ∧ c ∉ digits ∧ c ∉ ascii_lowercase ∧ c ∈ ascii_uppercase := by
  simp [ASCII_UPPERCASE, List.mem_filter, and_assoc]

/-- Membership in the punctuation bucket. -/
theorem mem_PUNCTUATION {cl : List Char} {c : Char} :
    c ∈ PUNCTUATION cl ↔
      c ∈ cl ∧ c ∉ digits ∧ c ∉ ascii_lowercase ∧ c ∉ ascii_uppercase := by
  simp [PUNCTUATION, List.mem_filter, and_assoc]

/-- Every bucket is a subset of the alphabet it classifies. -/
theorem buckets_subset {cl : List Char} :
    ∀ b ∈ buckets cl, ∀ x ∈ b, x ∈ cl := by
  intro b hb x hx
  simp only [buckets, List.mem_cons, List.not_mem_nil, or_false] at hb
  rcases hb with rfl | rfl | rfl | rfl <;> exact (List.mem_filter.mp hx).1

/-- At most four buckets are non-empty. -/
theorem catCount_le_four (cl : List Char) : catCount cl ≤ 4 := by
  unfold catCount
  calc (buckets cl).countP (fun b => decide (b ≠ []))
      ≤ (buckets cl).length := List.countP_le_length _
    _ = 4 := by simp [buckets]

/-- A non-empty alphabet fills at least one bucket. -/
theorem catCount_pos {cl : List Char} (h : cl ≠ []) : 1 ≤ catCount cl := by
  obtain ⟨c, hc⟩ := List.exists_mem_of_ne_nil cl h
  unfold catCount
  rw [Nat.succ_le_iff, List.countP_pos_iff]
  by_cases hd : c ∈ digits
  · exact ⟨DIGITS cl, by simp [buckets],
      by simp [List.ne_nil_of_mem (mem_DIGITS.mpr ⟨hc, hd⟩)]⟩
  · by_cases hl : c ∈ ascii_lowercase
    · exact ⟨ASCII_LOWERCASE cl, by simp [buckets],
        by simp [List.ne_nil_of_mem (mem_ASCII_LOWERCASE.mpr ⟨hc, hd, hl⟩)]⟩
    · by_cases hu : c ∈ ascii_uppercase
      · exact ⟨ASCII_UPPERCASE cl, by simp [buckets],
          by simp [List.ne_nil_of_mem (mem_ASCII_UPPERCASE.mpr ⟨hc, hd, hl, hu⟩)]⟩
      · exact ⟨PUNCTUATION cl, by simp [buckets],
          by simp [List.ne_nil_of_mem (mem_PUNCTUATION.mpr ⟨hc, hd, hl, hu⟩)]⟩

/-- The balanced branch of the sampler, unfolded. -/
theorem generate_balanced {cl : List Char} {len : Nat} {pureFlag : Bool}
    {rs : List Nat} (h4 : 4 ≤ len) (hp : pureFlag = false) :
    generate cl len pureFlag rs
      = insertCats (buckets cl) (fillers cl (len - catCount cl) rs)
          (rs.drop (len - catCount cl)) := by
  unfold generate
  rw [if_pos ⟨h4, hp⟩]

/-- The sampler always produces exactly `len` characters. -/
theorem generate_length (cl : List Char) (len : Nat) (pureFlag : Bool)
    (rs : List Nat) : (generate cl len pureFlag rs).length = len := by
  unfold generate
  split
  next h =>
    rw [insertCats_length, fillers_length]
    have h1 : catCount cl ≤ len := le_trans (catCount_le_four cl) h.1
    unfold catCount at h1 ⊢
    omega
  next => exact fillers_length cl len rs

/-- Every character the sampler produces belongs to the alphabet. -/
theorem generate_subset {cl : List Char} (h : cl ≠ []) (len : Nat)
    (pureFlag : Bool) (rs : List Nat) :
    ∀ c ∈ generate cl len pureFlag rs, c ∈ cl := by
  unfold generate
  split
  · exact insertCats_subset _ _ buckets_subset _ _ (fillers_subset h _ _)
  · exact fillers_subset h _ _

/-- Membership in an accumulated flag union: a character is selected exactly
when some set flag is on and contains it. -/
theorem accumFlags_mem {l : List (Bool × List Char)} {c : Char} :
    c ∈ accumFlags l ↔ ∃ p ∈ l, p.1 = true ∧ c ∈ p.2 := by
  have main : ∀ (l : List (Bool × List Char)) (s : List Char),
      c ∈ l.foldl (fun s p => if p.1 then sunion s p.2 else s) s ↔
        c ∈ s ∨ ∃ p ∈ l, p.1 = true ∧ c ∈ p.2 := by
    intro l
    induction l with
    | nil => intro s; simp
    | cons p ps ih =>
      intro s
      simp only [List.foldl_cons]
      by_cases hp : p.1 = true
      · rw [if_pos hp, ih, mem_sunion]
        simp only [List.mem_cons]
        constructor
        · rintro ((h | h) | ⟨q, hq, hq1, hqc⟩)
          · exact Or.inl h
          · exact Or.inr ⟨p, Or.inl rfl, hp, h⟩
          · exact Or.inr ⟨q, Or.inr hq, hq1, hqc⟩
        · rintro (h | ⟨q, (rfl | hq), hq1, hqc⟩)
          · exact Or.inl (Or.inl h)
          · exact Or.inl (Or.inr hqc)
          · exact Or.inr ⟨q, hq, hq1, hqc⟩
      · rw [if_neg hp, ih]
        simp only [List.mem_cons]
        constructor
        · rintro (h | ⟨q, hq, hq1, hqc⟩)
          · exact Or.inl h
          · exact Or.inr ⟨q, Or.inr hq, hq1, hqc⟩
        · rintro (h | ⟨q, (rfl | hq), hq1, hqc⟩)
          · exact Or.inl h
          · exact absurd hq1 hp
          · exact Or.inr ⟨q, hq, hq1, hqc⟩
  simpa using main l []

/-- Each of the eleven selectable category sets is contained in `ALL`. -/
theorem cat_subsets_ALL :
    (∀ x ∈ ALL, x ∈ ALL) ∧ (∀ x ∈ LOWERCASE, x ∈ ALL) ∧
    (∀ x ∈ UPPERCASE, x ∈ ALL) ∧ (∀ x ∈ LETTER, x ∈ ALL) ∧
    (∀ x ∈ DIGIT, x ∈ ALL) ∧ (∀ x ∈ ALPHANUMERIC, x ∈ ALL) ∧
    (∀ x ∈ SYMBOL, x ∈ ALL) ∧ (∀ x ∈ BINARY, x ∈ ALL) ∧
    (∀ x ∈ OCTAL, x ∈ ALL) ∧ (∀ x ∈ HEX_LOWER, x ∈ ALL) ∧
    (∀ x ∈ HEX_UPPER, x ∈ ALL) := by decide

/-- None of the ten cascade category sets is empty. -/
theorem cat_sets_ne_nil :
    LOWERCASE ≠ [] ∧ UPPERCASE ≠ [] ∧ LETTER ≠ [] ∧ DIGIT ≠ [] ∧
    ALPHANUMERIC ≠ [] ∧ SYMBOL ≠ [] ∧ BINARY ≠ [] ∧ OCTAL ≠ [] ∧
    HEX_LOWER ≠ [] ∧ HEX_UPPER ≠ [] := by decide

/-- Every category set a flag can select is contained in `ALL`. -/
theorem specFlagSets_snd_subset_ALL (a : Args) :
    ∀ p ∈ specFlagSets a, ∀ x ∈ p.2, x ∈ ALL := by
  obtain ⟨h1, h2, h3, h4, h5, h6, h7, h8, h9, h10, h11⟩ := cat_subsets_ALL
  intro p hp
  simp only [specFlagSets, flagSets, List.mem_cons, List.not_mem_nil,
    or_false] at hp
  rcases hp with rfl | rfl | rfl | rfl | rfl | rfl | rfl | rfl | rfl | rfl | rfl
    <;> assumption

/-- No category set a flag can select is empty. -/
theorem flagSets_snd_ne_nil (a : Args) : ∀ p ∈ flagSets a, p.2 ≠ [] := by
  obtain ⟨h1, h2, h3, h4, h5, h6, h7, h8, h9, h10⟩ := cat_sets_ne_nil
  intro p hp
  simp only [flagSets, List.mem_cons, List.not_mem_nil, or_false] at hp
  rcases hp with rfl | rfl | rfl | rfl | rfl | rfl | rfl | rfl | rfl | rfl
    <;> assumption

/-- The flag accumulation is empty exactly when no flag of the cascade is
selected. -/
theorem accumFlags_flagSets_eq_nil (a : Args) :
    accumFlags (flagSets a) = [] ↔ ∀ p ∈ flagSets a, p.1 = false := by
  constructor
  · intro h p hp
    by_contra hne
    have hp1 : p.1 = true := by revert hne; cases p.1 <;> simp
    obtain ⟨x, hx⟩ := List.exists_mem_of_ne_nil _ (flagSets_snd_ne_nil a p hp)
    have hmem : x ∈ accumFlags (flagSets a) :=
      accumFlags_mem.mpr ⟨p, hp, hp1, hx⟩
    rw [h] at hmem
    exact absurd hmem (List.not_mem_nil x)
  · intro h
    rw [List.eq_nil_iff_forall_not_mem]
    intro x hx
    obtain ⟨p, hp, hp1, -⟩ := accumFlags_mem.mp hx
    rw [h p hp] at hp1
    exact Bool.false_ne_true hp1

/-- The base set of phase 1 only contains permitted characters. -/
theorem baseSet_subset_ALL {a : Args} {c : Char} (h : c ∈ baseSet a) :
    c ∈ ALL := by
  unfold baseSet at h
  split_ifs at h with h1 h2
  · exact h
  · exact h
  · obtain ⟨p, hp, hp1, hc⟩ := accumFlags_mem.mp h
    exact specFlagSets_snd_subset_ALL a p (List.mem_cons_of_mem _ hp) c hc

/-- When the include characters are all permitted, the whole working
alphabet is contained in `ALL`. -/
theorem character_set_subset_ALL {a : Args}
    (hval : ∀ c ∈ a.excluded ++ a.included, c ∈ ALL) :
    ∀ c ∈ character_set a, c ∈ ALL := by
  intro c hc
  obtain ⟨hc1, -⟩ := mem_sminus.mp hc
  rcases mem_sunion.mp hc1 with hb | hi
  · exact baseSet_subset_ALL hb
  · exact hval c (List.mem_append.mpr (Or.inr (List.mem_dedup.mp hi)))

/-- Inversion of a successful run: all validations passed and the password
is the sampler's output on the composed alphabet. -/
theorem run_ok_elim {a : Args} {rs : List Nat} {pwd : List Char}
    (h : run a rs = .ok pwd) :
    0 < a.length ∧ (∀ c ∈ a.excluded ++ a.included, c ∈ ALL) ∧
      character_set a ≠ [] ∧
      pwd = generate (character_set a) a.length.toNat a.pure rs := by
  unfold run at h
  split_ifs at h with h1 h2 h3 h4
  push_neg at h2
  exact ⟨by omega, h2, h4, (Except.ok.inj h).symm⟩

/-- Phase 1 of the builder selects exactly the characters of the spec-level
union of the flag-selected categories, with the spec's default. -/
theorem baseSet_mem_iff_spec (a : Args) (c : Char) :
    c ∈ baseSet a ↔
      c ∈ (if noFlagSelected a ∧ a.empty = false then ALL
           else accumFlags (specFlagSets a)) := by
  by_cases hall : a.all = true
  · have hnoflag : ¬ noFlagSelected a := by
      intro hn
      have h1 := hn (a.all, ALL) (by simp [specFlagSets])
      simp [hall] at h1
    have hcond : ¬ (noFlagSelected a ∧ a.empty = false) := fun h => hnoflag h.1
    unfold baseSet
    rw [if_pos hall, if_neg hcond]
    constructor
    · intro hc
      exact accumFlags_mem.mpr ⟨(a.all, ALL), by simp [specFlagSets], hall, hc⟩
    · intro hc
      obtain ⟨p, hp, hp1, hcp⟩ := accumFlags_mem.mp hc
      exact specFlagSets_snd_subset_ALL a p hp c hcp
  · have hall' : a.all = false := by revert hall; cases a.all <;> simp
    have haccum : accumFlags (specFlagSets a) = accumFlags (flagSets a) := by
      simp [specFlagSets, accumFlags, hall']
    have hnf : noFlagSelected a ↔ ∀ p ∈ flagSets a, p.1 = false := by
      unfold noFlagSelected specFlagSets
      constructor
      · intro h p hp; exact h p (List.mem_cons_of_mem _ hp)
      · intro h p hp
        rcases List.mem_cons.mp hp with rfl | hp'
        · exact hall'
        · exact h p hp'
    simp only [baseSet, if_neg hall]
    by_cases hacc : accumFlags (flagSets a) = [] ∧ a.empty = false
    · rw [if_pos hacc,
        if_pos ⟨hnf.mpr ((accumFlags_flagSets_eq_nil a).mp hacc.1), hacc.2⟩]
    · have hnot : ¬ (noFlagSelected a ∧ a.empty = false) := by
        intro h
        exact hacc ⟨(accumFlags_flagSets_eq_nil a).mpr (hnf.mp h.1), h.2⟩
      rw [if_neg hacc, if_neg hnot, haccum]

/-- A category that meets a permitted alphabet has a non-empty bucket whose
characters all belong to the category. -/
theorem exists_bucket {cl : List Char} (hclALL : ∀ c ∈ cl, c ∈ ALL)
    {cat : List Char}
    (hcat : cat ∈ [digits, punctuation, ascii_lowercase, ascii_uppercase])
    {c0 : Char} (hc0 : c0 ∈ cl) (hc0cat : c0 ∈ cat) :
    ∃ b ∈ buckets cl, b ≠ [] ∧ ∀ x ∈ b, x ∈ cat := by
  have hld : ∀ c ∈ ascii_lowercase, c ∉ digits := by decide
  have hud : ∀ c ∈ ascii_uppercase, c ∉ digits := by decide
  have hul : ∀ c ∈ ascii_uppercase, c ∉ ascii_lowercase := by decide
  have hpd : ∀ c ∈ punctuation,
      c ∉ digits ∧ c ∉ ascii_lowercase ∧ c ∉ ascii_uppercase := by decide
  have hALLp : ∀ c ∈ ALL, c ∉ digits → c ∉ ascii_lowercase →
      c ∉ ascii_uppercase → c ∈ punctuation := by decide
  simp only [List.mem_cons, List.not_mem_nil, or_false] at hcat
  rcases hcat with rfl | rfl | rfl | rfl
  · exact ⟨DIGITS cl, by simp [buckets],
      List.ne_nil_of_mem (mem_DIGITS.mpr ⟨hc0, hc0cat⟩),
      fun x hx => (mem_DIGITS.mp hx).2⟩
  · refine ⟨PUNCTUATION cl, by simp [buckets],
      List.ne_nil_of_mem (mem_PUNCTUATION.mpr
        ⟨hc0, (hpd c0 hc0cat).1, (hpd c0 hc0cat).2.1, (hpd c0 hc0cat).2.2⟩),
      ?_⟩
    intro x hx
    obtain ⟨hx1, hx2, hx3, hx4⟩ := mem_PUNCTUATION.mp hx
    exact hALLp x (hclALL x hx1) hx2 hx3 hx4
  · exact ⟨ASCII_LOWERCASE cl, by simp [buckets],
      List.ne_nil_of_mem
        (mem_ASCII_LOWERCASE.mpr ⟨hc0, hld c0 hc0cat, hc0cat⟩),
      fun x hx => (mem_ASCII_LOWERCASE.mp hx).2.2⟩
  · exact ⟨ASCII_UPPERCASE cl, by simp [buckets],
      List.ne_nil_of_mem
        (mem_ASCII_UPPERCASE.mpr ⟨hc0, hud c0 hc0cat, hul c0 hc0cat, hc0cat⟩),
      fun x hx => (mem_ASCII_UPPERCASE.mp hx).2.2.2⟩

/-- C1: for every run that passes validation, the generated password has
exactly the requested length, in both the balanced branch (length >= 4
without --pure) and the plain branch. -/
theorem C1_run_length (a : Args) (rs : List Nat) (pwd : List Char)
    (h : run a rs = .ok pwd) : (pwd.length : Int) = a.length := by
  obtain ⟨hpos, -, -, hpwd⟩ := run_ok_elim h
  rw [hpwd, generate_length]
  omega

/-- C1 witness: `pwdgen 4 -d` with a concrete stream yields a password of
length 4. -/
theorem C1_run_length_witness :
    ((['0', '0', '1', '9'] : List Char).length : Int) = argsDigit4.length :=
  C1_run_length argsDigit4 [0, 1, 9, 4] ['0', '0', '1', '9'] rfl

/-- C2: for every run with requested length >= 4 and balance mode on, the
output contains at least one character of each of the four categories whose
intersection with the working alphabet is non-empty (here witnessed by a
character `c0` of the intersection). -/
theorem C2_balanced_categories (a : Args) (rs : List Nat) (pwd : List Char)
    (h : run a rs = .ok pwd) (h4 : 4 ≤ a.length) (hp : a.pure = false)
    (cat : List Char)
    (hcat : cat ∈ [digits, punctuation, ascii_lowercase, ascii_uppercase])
    (c0 : Char) (hc0 : c0 ∈ character_set a) (hc0cat : c0 ∈ cat) :
    ∃ c ∈ pwd, c ∈ cat := by
  obtain ⟨hpos, hval, hne, hpwd⟩ := run_ok_elim h
  obtain ⟨b, hb, hbne, hbsub⟩ :=
    exists_bucket (character_set_subset_ALL hval) hcat hc0 hc0cat
  have h4n : 4 ≤ a.length.toNat := by omega
  obtain ⟨c, hcmem, hcb⟩ :=
    insertCats_exists (buckets (character_set a))
      (fillers (character_set a)
        (a.length.toNat - catCount (character_set a)) rs)
      (rs.drop (a.length.toNat - catCount (character_set a))) b hb hbne
  refine ⟨c, ?_, hbsub c hcb⟩
  rw [hpwd, generate_balanced h4n hp]
  exact hcmem

/-- C2 witness: the digit category meets the alphabet of `pwdgen 4 -d` and
the concrete output contains a digit. -/
theorem C2_balanced_categories_witness :
    ∃ c ∈ (['0', '0', '1', '9'] : List Char), c ∈ digits :=
  C2_balanced_categories argsDigit4 [0, 1, 9, 4] ['0', '0', '1', '9'] rfl
    (by decide) rfl digits (by decide) '0' (by decide) (by decide)

/-- C3: for every run that passes validation, every character of the output
password is a member of the working alphabet, in both sampling branches. -/
theorem C3_output_in_alphabet (a : Args) (rs : List Nat) (pwd : List Char)
    (h : run a rs = .ok pwd) (c : Char) (hc : c ∈ pwd) :
    c ∈ character_set a := by
  obtain ⟨-, -, hne, hpwd⟩ := run_ok_elim h
  rw [hpwd] at hc
  exact generate_subset hne _ _ _ c hc

/-- C3 witness: the first character of the concrete `pwdgen 4 -d` output
belongs to its working alphabet. -/
theorem C3_output_in_alphabet_witness : '0' ∈ character_set argsDigit4 :=
  C3_output_in_alphabet argsDigit4 [0, 1, 9, 4] ['0', '0', '1', '9'] rfl '0'
    (by decide)

/-- C4: for every run, the working alphabet equals the union of the
flag-selected categories (defaulting to the full permitted set when no flag
is selected and --empty is not requested) extended by the include characters
and then with the exclude characters removed. -/
theorem C4_alphabet_eq_spec (a : Args) (c : Char) :
    c ∈ character_set a ↔ c ∈ specAlphabet a := by
  simp only [character_set, specAlphabet, mem_sminus, mem_sunion,
    baseSet_mem_iff_spec a c]

/-- C5 counterexample: on the alphabet consisting of the digit 0 and the
letter a, with length 4 and a concrete stream of draws, the code's balanced
sampler (fillers appended first, insertions after) differs from the
procedure in the spec's stated order (insertions first into an empty
password, fillers appended after). -/
theorem C5_order_counterexample :
    generate ['0', 'a'] 4 false [0, 0, 0, 0, 3, 0] ≠
      specOrderSample ['0', 'a'] 4 [0, 0, 0, 0, 3, 0] := by decide

/-- C5 amended: for every run with length >= 4 and balance mode on, the
sampler first appends the `length - count` filler characters drawn from the
full alphabet and only then, for each non-empty bucket in the order digits,
symbols, lowercase, uppercase, inserts one drawn character at a uniformly
random position of the password built so far. -/
theorem C5_balanced_two_phases (a : Args) (rs : List Nat) (pwd : List Char)
    (h : run a rs = .ok pwd) (h4 : 4 ≤ a.length) (hp : a.pure = false) :
    pwd = insertCats (buckets (character_set a))
        (fillers (character_set a)
          (a.length.toNat - catCount (character_set a)) rs)
        (rs.drop (a.length.toNat - catCount (character_set a))) := by
  obtain ⟨hpos, -, -, hpwd⟩ := run_ok_elim h
  rw [hpwd]
  exact generate_balanced (by omega) hp

/-- C5 witness: the two-phase shape of the concrete `pwdgen 4 -d` output. -/
theorem C5_balanced_two_phases_witness :
    (['0', '0', '1', '9'] : List Char)
      = insertCats (buckets (character_set argsDigit4))
          (fillers (character_set argsDigit4)
            (argsDigit4.length.toNat - catCount (character_set argsDigit4))
            [0, 1, 9, 4])
          (List.drop
            (argsDigit4.length.toNat - catCount (character_set argsDigit4))
            [0, 1, 9, 4]) :=
  C5_balanced_two_phases argsDigit4 [0, 1, 9, 4] ['0', '0', '1', '9'] rfl
    (by decide) rfl

/-- C6: when the length is positive but some character of the include or
exclude string is outside the full permitted set, the run fails with the
invalid-character error before sampling, producing no password. -/
theorem C6_invalid_character (a : Args) (rs : List Nat)
    (hlen : 0 < a.length)
    (hbad : ∃ c ∈ a.excluded ++ a.included, c ∉ ALL) :
    run a rs = .error .invalidChar := by
  unfold run
  rw [if_neg (by omega), if_pos hbad]

/-- C6 witness: a space in the include string is rejected. -/
theorem C6_invalid_character_witness : run argsSpace [] = .error .invalidChar :=
  C6_invalid_character argsSpace [] (by decide) (by decide)

/-- C7: when the length is positive, all include/exclude characters are
permitted, and the include and exclude sets share a character, the run fails
with the conflict error before sampling. -/
theorem C7_conflict (a : Args) (rs : List Nat)
    (hlen : 0 < a.length)
    (hval : ∀ c ∈ a.excluded ++ a.included, c ∈ ALL)
    (hconf : ∃ c ∈ a.excluded, c ∈ a.included) :
    run a rs = .error .conflict := by
  unfold run
  have h2 : ¬ ∃ c ∈ a.excluded ++ a.included, c ∉ ALL := by
    rintro ⟨c, hc, hnc⟩
    exact hnc (hval c hc)
  rw [if_neg (by omega), if_neg h2, if_pos hconf]

/-- C7 witness: include "@" with exclude "@" is rejected as a conflict. -/
theorem C7_conflict_witness : run argsAt [] = .error .conflict :=
  C7_conflict argsAt [] (by decide) (by decide) (by decide)

/-- C8: when the earlier validations pass but the composed working alphabet
is empty, the run fails with the empty-set error before any character is
sampled. -/
theorem C8_empty_set (a : Args) (rs : List Nat)
    (hlen : 0 < a.length)
    (hval : ∀ c ∈ a.excluded ++ a.included, c ∈ ALL)
    (hdisj : ∀ c ∈ a.excluded, c ∉ a.included)
    (hempty : character_set a = []) :
    run a rs = .error .emptySet := by
  unfold run
  have h2 : ¬ ∃ c ∈ a.excluded ++ a.included, c ∉ ALL := by
    rintro ⟨c, hc, hnc⟩
    exact hnc (hval c hc)
  have h3 : ¬ ∃ c ∈ a.excluded, c ∈ a.included := by
    rintro ⟨c, hc, hci⟩
    exact hdisj c hc hci
  rw [if_neg (by omega), if_neg h2, if_neg h3, if_pos hempty]

/-- C8 witness: `pwdgen -0` composes the empty alphabet and is rejected. -/
theorem C8_empty_set_witness : run argsEmptySet [] = .error .emptySet :=
  C8_empty_set argsEmptySet [] (by decide) (by decide) (by decide) (by decide)

/-- C9: for every run with a non-positive requested length, the program
exits with the length error before any sampling or character-set
construction, producing no password. -/
theorem C9_bad_length (a : Args) (rs : List Nat) (hlen : a.length ≤ 0) :
    run a rs = .error .badLength := by
  unfold run
  rw [if_pos hlen]

/-- C9 witness: length 0 is rejected. -/
theorem C9_bad_length_witness : run argsZero [] = .error .badLength :=
  C9_bad_length argsZero [] (by decide)

/-- C10: the four buckets partition the alphabet (every character of the
alphabet lies in exactly one bucket, and a character that is neither digit
nor lowercase nor uppercase lands in the symbol bucket), so the number of
non-empty buckets lies between 1 and 4 and never exceeds a length of at
least 4. -/
theorem C10_buckets_partition (cl : List Char) (c : Char) (hc : c ∈ cl)
    (len : Nat) (hlen : 4 ≤ len) :
    (buckets cl).countP (fun b => decide (c ∈ b)) = 1 ∧
    (c ∉ digits → c ∉ ascii_lowercase → c ∉ ascii_uppercase →
      c ∈ PUNCTUATION cl) ∧
    1 ≤ catCount cl ∧ catCount cl ≤ 4 ∧ catCount cl ≤ len := by
  refine ⟨?_, ?_, catCount_pos (List.ne_nil_of_mem hc), catCount_le_four cl,
    le_trans (catCount_le_four cl) hlen⟩
  · by_cases hd : c ∈ digits <;> by_cases hl : c ∈ ascii_lowercase <;>
      by_cases hu : c ∈ ascii_uppercase <;>
      simp [buckets, List.countP_cons, mem_DIGITS, mem_PUNCTUATION,
        mem_ASCII_LOWERCASE, mem_ASCII_UPPERCASE, hc, hd, hl, hu]
  · intro hd hl hu
    exact mem_PUNCTUATION.mpr ⟨hc, hd, hl, hu⟩

/-- C10 witness: the partition facts at the one-character alphabet "@". -/
theorem C10_buckets_partition_witness :
    (buckets ['@']).countP (fun b => decide ('@' ∈ b)) = 1 ∧
    ('@' ∉ digits → '@' ∉ ascii_lowercase → '@' ∉ ascii_uppercase →
      '@' ∈ PUNCTUATION ['@']) ∧
    1 ≤ catCount ['@'] ∧ catCount ['@'] ≤ 4 ∧ catCount ['@'] ≤ 4 :=
  C10_buckets_partition ['@'] '@' (by decide) 4 (by decide)
